import Mathlib

/-!
Shallow embedding of the `plugintranslations` package
(`translator.py`, `throttle.py`) together with the collaborators it uses.

The repository ships `translator.py` and `throttle.py`; the helper modules
`translations.py` (the `Translations` cache) and `source_file.py` (the
`SourceFile` / prompt store) are not part of the sources, so those two are
modelled from the specification (sections 3, 4.1, 4.2).  Everything else is
translated directly from the Python sources.

Python `dict` cells are modelled by association lists whose update operation
removes any previous binding of the key before prepending the new one, so that
lookup of a key always returns the most recent value, exactly as a `dict`.
-/

namespace PluginTranslations

/-- Lookup of a key in an association list whose keys are strings
(the reading half of a Python `dict`). -/
def alistGet {β : Type} : List (String × β) → String → Option β
  | [], _ => none
  | e :: rest, k => if e.1 = k then some e.2 else alistGet rest k

/-- Removal of every binding of a key from an association list. -/
def alistErase {β : Type} (m : List (String × β)) (k : String) : List (String × β) :=
  m.filter (fun e => decide (e.1 ≠ k))

theorem alistGet_cons {β : Type} (e : String × β) (rest : List (String × β)) (k : String) :
    alistGet (e :: rest) k = if e.1 = k then some e.2 else alistGet rest k := rfl

theorem alistGet_erase_ne {β : Type} (m : List (String × β)) (k k' : String) (h : k' ≠ k) :
    alistGet (alistErase m k) k' = alistGet m k' := by
  induction m with
  | nil => rfl
  | cons e rest ih =>
    by_cases he : e.1 = k
    · have hek : e.1 ≠ k' := fun hc => h (hc.symm.trans he)
      have hdrop : alistErase (e :: rest) k = alistErase rest k := by
        simp [alistErase, List.filter_cons, he]
      rw [hdrop, ih, alistGet_cons, if_neg hek]
    · have hkeep : alistErase (e :: rest) k = e :: alistErase rest k := by
        simp [alistErase, List.filter_cons, he]
      rw [hkeep, alistGet_cons, alistGet_cons, ih]

/-- A `language → translated text` mapping (one Python `dict[str, str]`). -/
abbrev LangMap := List (String × String)

/-- Lookup in a `LangMap` (Python `dict` subscript / `in`). -/
def mapGet (m : LangMap) (k : String) : Option String := alistGet m k

/-- Update of a `LangMap` cell (Python `dict[k] = v`): the previous binding of
`k`, if any, is removed, and the new one is put in front. -/
def mapSet (m : LangMap) (k v : String) : LangMap :=
  (k, v) :: alistErase m k

theorem mapGet_mapSet (m : LangMap) (k v k' : String) :
    mapGet (mapSet m k v) k' = if k' = k then some v else mapGet m k' := by
  by_cases h : k' = k
  · simp [mapSet, mapGet, alistGet, h]
  · simp [mapSet, mapGet, alistGet, h, Ne.symm h, alistGet_erase_ne m k k' h]

/-- A prompt (spec section 3): the literal source text, plus the
`language → translated text` mapping resolved so far.
Modelled from the spec: `source_file.py` is not among the sources. -/
structure Prompt where
  text : String
  translations : LangMap
deriving DecidableEq

/-- Method `Prompt.set_translation` — store one translation cell. -/
def Prompt.set_translation (p : Prompt) (lang tr : String) : Prompt :=
  { p with translations := mapSet p.translations lang tr }

/-- Method `Prompt.has_translation` — whether an entry (possibly empty) is present for
the language.  Modelled from the spec: presence of the entry is what is
tested, as required by the dedup contract of spec section 4.3 step 4c. -/
def Prompt.has_translation (p : Prompt) (lang : String) : Bool :=
  (mapGet p.translations lang).isSome

/-- Method `Prompt.set_translations` — copy a whole `language → text` mapping onto
the prompt (spec section 4.3 step 4a). -/
def Prompt.set_translations (p : Prompt) (tr : LangMap) : Prompt :=
  tr.foldl (fun q e => q.set_translation e.1 e.2) p

theorem Prompt.text_set_translation (p : Prompt) (lang tr : String) :
    (p.set_translation lang tr).text = p.text := rfl

theorem Prompt.text_set_translations (p : Prompt) (m : LangMap) :
    (p.set_translations m).text = p.text := by
  induction m generalizing p with
  | nil => rfl
  | cons e rest ih => simpa [Prompt.set_translations] using ih (p.set_translation e.1 e.2)

theorem Prompt.has_translation_set_translation (p : Prompt) (lang tr l : String) :
    (p.set_translation lang tr).has_translation l =
      (decide (l = lang) || p.has_translation l) := by
  by_cases h : l = lang <;>
    simp [Prompt.set_translation, Prompt.has_translation, mapGet_mapSet, h]

theorem Prompt.has_translation_set_translations (p : Prompt) (m : LangMap) (l : String) :
    (p.set_translations m).has_translation l =
      ((mapGet m l).isSome || p.has_translation l) := by
  induction m generalizing p with
  | nil => simp [Prompt.set_translations, mapGet, alistGet]
  | cons e rest ih =>
    simp only [Prompt.set_translations, List.foldl_cons] at *
    rw [ih (p.set_translation e.1 e.2)]
    by_cases h : e.1 = l
    · simp [mapGet, alistGet, h, Prompt.has_translation_set_translation]
    · have hl : l ≠ e.1 := fun hc => h hc.symm
      simp [mapGet, alistGet, h, hl, Prompt.has_translation_set_translation]

theorem Prompt.mapGet_set_translation_other (p : Prompt) (lang tr l : String) (h : l ≠ lang) :
    mapGet (p.set_translation lang tr).translations l = mapGet p.translations l := by
  simp [Prompt.set_translation, mapGet_mapSet, h]

/-- Find the `language → text` mapping stored for a text in the cache. -/
def cacheFind (d : List (String × LangMap)) (t : String) : Option LangMap :=
  alistGet d t

/-- The translation cache (spec sections 3, 4.2): a mapping
`text → language → translated text`.
Modelled from the spec: `translations.py` is not among the sources. -/
structure Translations where
  data : List (String × LangMap)
deriving DecidableEq

/-- Membership test `text in cache` (spec: `contains(text) -> bool`). -/
def Translations.contains (c : Translations) (t : String) : Bool :=
  (cacheFind c.data t).isSome

/-- Method `get_translations(text)` (spec: `get(text)`, empty mapping if absent). -/
def Translations.get_translations (c : Translations) (t : String) : LangMap :=
  (cacheFind c.data t).getD []

/-- Method `add_translation(language, text, translation)` (spec: insert/overwrite a
single cell). -/
def Translations.add_translation (c : Translations) (lang t tr : String) : Translations :=
  ⟨(t, mapSet (c.get_translations t) lang tr) :: alistErase c.data t⟩

/-- Whether the cache holds a cell for the (language, text) pair. -/
def Translations.has_cell (c : Translations) (lang t : String) : Bool :=
  (mapGet (c.get_translations t) lang).isSome

theorem Translations.get_translations_add (c : Translations) (lang t tr t' : String) :
    (c.add_translation lang t tr).get_translations t' =
      if t' = t then mapSet (c.get_translations t) lang tr else c.get_translations t' := by
  by_cases h : t' = t
  · simp [Translations.add_translation, Translations.get_translations, cacheFind, alistGet, h]
  · simp [Translations.add_translation, Translations.get_translations, cacheFind, alistGet,
      h, Ne.symm h, alistGet_erase_ne c.data t t' h]

theorem Translations.has_cell_add (c : Translations) (lang t tr l' t' : String) :
    (c.add_translation lang t tr).has_cell l' t' =
      ((decide (t' = t) && decide (l' = lang)) || c.has_cell l' t') := by
  by_cases ht : t' = t
  · by_cases hl : l' = lang <;>
      simp [Translations.has_cell, Translations.get_translations_add, ht, hl, mapGet_mapSet]
  · simp [Translations.has_cell, Translations.get_translations_add, ht]

theorem Translations.contains_of_has_cell (c : Translations) (lang t : String)
    (h : c.has_cell lang t = true) : c.contains t = true := by
  unfold Translations.has_cell Translations.get_translations at h
  unfold Translations.contains
  cases hf : cacheFind c.data t with
  | none => rw [hf] at h; simp [mapGet, alistGet] at h
  | some m => simp [hf]

/-- The behaviour of the remote provider (`deepl.Translator.translate_text`):
`some tr` is a `deepl.TextResult` carrying `tr`, `none` is a result of an
unexpected shape. -/
abbrev DeeplOracle := String → String → Option String

/-- The run-scoped mutable state threaded through `do_translate`:
the `__existing_translations` cache, the `__api_call_counter`, and the trace
of the remote calls issued so far (each as a (text, target language) pair). -/
structure TransState where
  cache : Translations
  api_call_counter : Nat
  calls : List (String × String)
deriving DecidableEq

/-- Method `PluginTranslator.transalte_with_deepl` (translator.py lines 268-287):
return `''` when no provider handle exists; otherwise count the call, invoke
the provider, and return `''` instead of raising when the result has an
unexpected shape. -/
def transalte_with_deepl (translator : Option DeeplOracle) (s : TransState)
    (text target_language : String) : String × TransState :=
  match translator with
  | none => ("", s)
  | some f =>
    let s1 : TransState :=
      { s with
        api_call_counter := s.api_call_counter + 1
        calls := s.calls ++ [(text, target_language)] }
    match f text target_language with
    | some tr => (tr, s1)
    | none => ("", s1)

/-- The inner loop of `PluginTranslator.do_translate` (lines 233-239): for
each target language other than the source language that the prompt still
lacks, make one remote call, store the result on the prompt and in the
cache.  This loop only runs when a provider is configured. -/
def resolve_targets (translator : Option DeeplOracle) (source : String) :
    List String → Prompt → TransState → Prompt × TransState
  | [], p, s => (p, s)
  | lang :: rest, p, s =>
    if lang = source then
      resolve_targets translator source rest p s
    else if p.has_translation lang then
      resolve_targets translator source rest p s
    else
      let r := transalte_with_deepl translator s p.text lang
      resolve_targets translator source rest (p.set_translation lang r.1)
        { r.2 with cache := r.2.cache.add_translation lang p.text r.1 }

/-- Lines 223-226 of `do_translate`: when the cache contains the prompt text,
copy the cached `language → translation` mapping onto the prompt. -/
def copy_cache_hits (p : Prompt) (s : TransState) : Prompt :=
  if s.cache.contains p.text then p.set_translations (s.cache.get_translations p.text) else p

/-- The per-prompt body of `PluginTranslator.do_translate` (lines 221-239):
copy the cache hits onto the prompt, force the source-language entry to the
original text, then (only if a provider is configured) fill the remaining
gaps remotely. -/
def resolve_prompt (translator : Option DeeplOracle) (source : String)
    (targets : List String) (p : Prompt) (s : TransState) : Prompt × TransState :=
  let p1 := copy_cache_hits p s
  let p2 := p1.set_translation source p1.text
  match translator with
  | none => (p2, s)
  | some _ => resolve_targets translator source targets p2 s

/-- Body of `do_translate` iterated over the prompts of one file. -/
def resolve_prompts (translator : Option DeeplOracle) (source : String)
    (targets : List String) : List Prompt → TransState → List Prompt × TransState
  | [], s => ([], s)
  | p :: ps, s =>
    let r := resolve_prompt translator source targets p s
    let rest := resolve_prompts translator source targets ps r.2
    (r.1 :: rest.1, rest.2)

/-- Method `PluginTranslator.do_translate` (lines 218-240): resolve every prompt of
every discovered file, threading the cache, the call counter and the call
trace through the whole run. -/
def do_translate (translator : Option DeeplOracle) (source : String)
    (targets : List String) :
    List (String × List Prompt) → TransState → List (String × List Prompt) × TransState
  | [], s => ([], s)
  | (path, ps) :: fs, s =>
    let r := resolve_prompts translator source targets ps s
    let rest := do_translate translator source targets fs r.2
    ((path, r.1) :: rest.1, rest.2)

/-- Python `str.strip()`, modelled over the ASCII whitespace characters
(`Char.isWhitespace`): drop leading and trailing whitespace. -/
def strip (s : String) : String :=
  String.mk (((s.data.dropWhile Char.isWhitespace).reverse.dropWhile
    Char.isWhitespace).reverse)

/-- Method `PluginTranslator._get_input` (lines 125-127): strip the environment
value; an absent or blank value becomes `None`. -/
def get_input (val : Option String) : Option String :=
  match val with
  | none => none
  | some v => if strip v = "" then none else some (strip v)

/-- Method `PluginTranslator._get_boolean_input` (lines 129-138): accept exactly the
six spellings of a boolean, raise (`Except.error`) on anything else,
including an absent or blank value. -/
def get_boolean_input (val : Option String) : Except String Bool :=
  match get_input val with
  | some s =>
    if s = "true" ∨ s = "True" ∨ s = "TRUE" then Except.ok true
    else if s = "false" ∨ s = "False" ∨ s = "FALSE" then Except.ok false
    else Except.error "Input does not meet specifications"
  | none => Except.error "Input does not meet specifications"

/-- The `PluginTranslator.deepl_translator` property (lines 71-79): a provider
handle exists exactly when an API key was supplied. -/
def deepl_translator (deepl_api_key : Option String) (provider : DeeplOracle) :
    Option DeeplOracle :=
  match deepl_api_key with
  | none => none
  | some _ => some provider

/-- The plugin metadata descriptor (`info.json`): the fields the embedded
operations touch. -/
structure InfoJson where
  id : String
  language : List String
deriving DecidableEq

/-- Method `PluginTranslator.__write_info_json` (lines 161-166): overwrite the
`language` field with `sorted(set([source] + targets))`; the provider plays
no role here. -/
def write_info_json (content : InfoJson) (source : String)
    (target_languages : List String) : InfoJson :=
  { content with
    language := ((source :: target_languages).dedup).insertionSort (· ≤ ·) }

/-- Method `SourceFile.get_prompts_and_translation` — the per-file, per-language
output selection.  Modelled from the spec (`source_file.py` is not among the
sources, spec section 4.3 step 6 and section 8): keep each prompt that has an
entry for the language, dropping empty entries unless they are explicitly
included. -/
def get_prompts_and_translation (ps : List Prompt) (target_language : String)
    (include_empty : Bool) : List (String × String) :=
  ps.filterMap (fun p =>
    match mapGet p.translations target_language with
    | none => none
    | some tr =>
      if tr = "" ∧ include_empty = false then none else some (p.text, tr))

/-- Method `PluginTranslator.write_plugin_translations` (lines 314-334): for each
emitted target language, assemble the output document from the files that
contribute at least one qualifying prompt, and write a file only when the
document is non-empty.  The result lists the (language, document) pairs
actually written. -/
def write_plugin_translations (source : String)
    (generate_source_language_translations include_empty : Bool)
    (target_languages : List String) (files : List (String × List Prompt)) :
    List (String × List (String × List (String × String))) :=
  target_languages.filterMap (fun lang =>
    if lang = source ∧ generate_source_language_translations = false then none
    else
      let doc := files.filterMap (fun file =>
        let prompts := get_prompts_and_translation file.2 lang include_empty
        if 0 < prompts.length then some (file.1, prompts) else none)
      if 0 < doc.length then some (lang, doc) else none)

/-- The state of a `Throttle` instance (throttle.py): the configured period
and the recorded time of the last call, in idealized wall-clock seconds. -/
structure Throttle where
  throttle_period : Rat
  time_of_last_call : Rat
deriving DecidableEq

/-- Wrapper body of `Throttle.__call__` (throttle.py lines 15-30), with
`time.monotonic()` passed in as `now` and `time.sleep` modelled exactly:
the first component is the instant at which the wrapped function runs. -/
def Throttle.call (st : Throttle) (now : Rat) : Rat × Throttle :=
  let time_since_last_call := now - st.time_of_last_call
  if st.throttle_period < time_since_last_call then
    (now, { st with time_of_last_call := now })
  else
    let wait_seconds := st.throttle_period - time_since_last_call
    (now + wait_seconds, { st with time_of_last_call := now + wait_seconds })

theorem transalte_with_deepl_some (f : DeeplOracle) (s : TransState) (text lang : String) :
    transalte_with_deepl (some f) s text lang =
      ((f text lang).getD "",
       { cache := s.cache
         api_call_counter := s.api_call_counter + 1
         calls := s.calls ++ [(text, lang)] }) := by
  cases h : f text lang <;> simp [transalte_with_deepl, h]

theorem transalte_with_deepl_calls (tl : Option DeeplOracle) (s : TransState) (text lang : String) :
    (transalte_with_deepl tl s text lang).2.calls = s.calls ∨
      (transalte_with_deepl tl s text lang).2.calls = s.calls ++ [(text, lang)] := by
  cases tl with
  | none => exact Or.inl rfl
  | some f => cases h : f text lang <;> simp [transalte_with_deepl, h]

theorem transalte_with_deepl_cache (tl : Option DeeplOracle) (s : TransState) (text lang : String) :
    (transalte_with_deepl tl s text lang).2.cache = s.cache := by
  cases tl with
  | none => rfl
  | some f => cases h : f text lang <;> simp [transalte_with_deepl, h]

theorem resolve_targets_text (tl : Option DeeplOracle) (source : String) (targets : List String)
    (p : Prompt) (s : TransState) :
    (resolve_targets tl source targets p s).1.text = p.text := by
  induction targets generalizing p s with
  | nil => rfl
  | cons lang rest ih =>
    by_cases h1 : lang = source
    · simpa [resolve_targets, h1] using ih p s
    · by_cases h2 : p.has_translation lang = true
      · simpa [resolve_targets, h1, h2] using ih p s
      · simp only [resolve_targets, h1, if_false, h2, Bool.false_eq_true, ite_false]
        rw [ih]
        rfl

theorem resolve_targets_mapGet_source (tl : Option DeeplOracle) (source : String)
    (targets : List String) (p : Prompt) (s : TransState) :
    mapGet (resolve_targets tl source targets p s).1.translations source =
      mapGet p.translations source := by
  induction targets generalizing p s with
  | nil => rfl
  | cons lang rest ih =>
    by_cases h1 : lang = source
    · simpa [resolve_targets, h1] using ih p s
    · by_cases h2 : p.has_translation lang = true
      · simpa [resolve_targets, h1, h2] using ih p s
      · simp only [resolve_targets, h1, if_false, h2, Bool.false_eq_true, ite_false]
        rw [ih]
        exact Prompt.mapGet_set_translation_other p lang _ source (Ne.symm h1)

theorem resolve_targets_has_mono (tl : Option DeeplOracle) (source : String)
    (targets : List String) (p : Prompt) (s : TransState) (L : String)
    (h : p.has_translation L = true) :
    (resolve_targets tl source targets p s).1.has_translation L = true := by
  induction targets generalizing p s with
  | nil => exact h
  | cons lang rest ih =>
    by_cases h1 : lang = source
    · simpa [resolve_targets, h1] using ih p s h
    · by_cases h2 : p.has_translation lang = true
      · simpa [resolve_targets, h1, h2] using ih p s h
      · simp only [resolve_targets, h1, if_false, h2, Bool.false_eq_true, ite_false]
        exact ih _ _ (by simp [Prompt.has_translation_set_translation, h])

theorem resolve_targets_no_call_of_has (tl : Option DeeplOracle) (source : String)
    (targets : List String) (p : Prompt) (s : TransState) (L : String)
    (h : p.has_translation L = true) :
    ∀ pr ∈ (resolve_targets tl source targets p s).2.calls,
      pr ∈ s.calls ∨ pr ≠ (p.text, L) := by
  induction targets generalizing p s with
  | nil => exact fun pr hpr => Or.inl hpr
  | cons lang rest ih =>
    by_cases h1 : lang = source
    · simpa [resolve_targets, h1] using ih p s h
    · by_cases h2 : p.has_translation lang = true
      · simpa [resolve_targets, h1, h2] using ih p s h
      · simp only [resolve_targets, h1, if_false, h2, Bool.false_eq_true, ite_false]
        intro pr hpr
        have hlangL : lang ≠ L := fun hc => by rw [hc, h] at h2; exact h2 rfl
        have hmono : (p.set_translation lang (transalte_with_deepl tl s p.text lang).1).has_translation L = true := by
          simp [Prompt.has_translation_set_translation, h]
        have := ih _ _ hmono pr hpr
        rcases this with hin | hne
        · rcases transalte_with_deepl_calls tl s p.text lang with hc | hc
          · rw [hc] at hin; exact Or.inl hin
          · rw [hc] at hin
            rcases List.mem_append.1 hin with hin2 | hin2
            · exact Or.inl hin2
            · right
              intro hcontra
              rw [List.mem_singleton] at hin2
              rw [hcontra] at hin2
              exact hlangL (Prod.ext_iff.1 hin2).2.symm
        · right
          simpa [Prompt.text_set_translation] using hne

/-- The run invariant of `do_translate`: every remote call issued so far is
recorded in the cache, under its (target language, text) pair, with exactly
the value the provider call returned (`''` for an unexpected result shape). -/
def calls_recorded (f : DeeplOracle) (s : TransState) : Prop :=
  ∀ pr ∈ s.calls,
    mapGet (s.cache.get_translations pr.1) pr.2 = some ((f pr.1 pr.2).getD "")

theorem resolve_targets_invariant (f : DeeplOracle) (source : String) (targets : List String)
    (p : Prompt) (s : TransState)
    (h1 : calls_recorded f s) (h2 : s.calls.Nodup)
    (h3 : ∀ pr ∈ s.calls, pr.1 = p.text → p.has_translation pr.2 = true) :
    calls_recorded f (resolve_targets (some f) source targets p s).2 ∧
    (resolve_targets (some f) source targets p s).2.calls.Nodup := by
  induction targets generalizing p s with
  | nil => exact ⟨h1, h2⟩
  | cons lang rest ih =>
    by_cases hl1 : lang = source
    · simpa [resolve_targets, hl1] using ih p s h1 h2 h3
    · by_cases hl2 : p.has_translation lang = true
      · simpa [resolve_targets, hl1, hl2] using ih p s h1 h2 h3
      · simp only [resolve_targets, hl1, if_false, hl2, Bool.false_eq_true, ite_false,
          transalte_with_deepl_some]
        set v := (f p.text lang).getD "" with hv
        have hnotin : (p.text, lang) ∉ s.calls := fun hin => by
          rw [h3 (p.text, lang) hin rfl] at hl2; exact hl2 rfl
        apply ih
        · intro pr hpr
          simp only [List.mem_append, List.mem_singleton] at hpr
          rcases hpr with hold | hnew
          · have hrec := h1 pr hold
            by_cases ht : pr.1 = p.text
            · have hlg : pr.2 ≠ lang := fun hc => by
                apply hnotin
                have : pr = (p.text, lang) := Prod.ext_iff.2 ⟨ht, hc⟩
                rwa [this] at hold
              simp only [Translations.get_translations_add, ht, if_pos, mapGet_mapSet,
                hlg, if_neg, if_false]
              exact ht ▸ hrec
            · simp only [Translations.get_translations_add, ht, if_neg]
              exact hrec
          · subst hnew
            simp [Translations.get_translations_add, mapGet_mapSet]
        · simp [List.nodup_append, h2, hnotin]
        · intro pr hpr hpt
          simp only [List.mem_append, List.mem_singleton] at hpr
          rcases hpr with hold | hnew
          · have := h3 pr hold (by simpa [Prompt.text_set_translation] using hpt)
            simp [Prompt.has_translation_set_translation, this]
          · subst hnew
            simp [Prompt.has_translation_set_translation]

theorem copy_cache_hits_text (p : Prompt) (s : TransState) :
    (copy_cache_hits p s).text = p.text := by
  unfold copy_cache_hits
  by_cases h : s.cache.contains p.text <;> simp [h, Prompt.text_set_translations]

theorem copy_cache_hits_has_of_cell (p : Prompt) (s : TransState) (L : String)
    (h : s.cache.has_cell L p.text = true) :
    (copy_cache_hits p s).has_translation L = true := by
  have hcont := Translations.contains_of_has_cell s.cache L p.text h
  unfold copy_cache_hits
  rw [if_pos hcont, Prompt.has_translation_set_translations]
  unfold Translations.has_cell at h
  simp [h]

theorem resolve_prompt_invariant (f : DeeplOracle) (source : String) (targets : List String)
    (p : Prompt) (s : TransState)
    (h1 : calls_recorded f s) (h2 : s.calls.Nodup) :
    calls_recorded f (resolve_prompt (some f) source targets p s).2 ∧
    (resolve_prompt (some f) source targets p s).2.calls.Nodup := by
  apply resolve_targets_invariant f source targets _ s h1 h2
  intro pr hpr hpt
  rw [Prompt.text_set_translation, copy_cache_hits_text] at hpt
  have hrec := h1 pr hpr
  have hcell : s.cache.has_cell pr.2 pr.1 = true := by
    simp [Translations.has_cell, hrec]
  rw [hpt] at hcell
  have := copy_cache_hits_has_of_cell p s pr.2 hcell
  simp [Prompt.has_translation_set_translation, this]

theorem resolve_prompt_none_state (source : String) (targets : List String)
    (p : Prompt) (s : TransState) :
    (resolve_prompt none source targets p s).2 = s := rfl

theorem resolve_prompts_none_state (source : String) (targets : List String)
    (ps : List Prompt) (s : TransState) :
    (resolve_prompts none source targets ps s).2 = s := by
  induction ps generalizing s with
  | nil => rfl
  | cons p rest ih => simp [resolve_prompts, resolve_prompt_none_state, ih]

theorem do_translate_none_state (source : String) (targets : List String)
    (files : List (String × List Prompt)) (s : TransState) :
    (do_translate none source targets files s).2 = s := by
  induction files generalizing s with
  | nil => rfl
  | cons fl rest ih =>
    cases fl with
    | mk path ps => simp [do_translate, resolve_prompts_none_state, ih]

theorem resolve_prompts_invariant (f : DeeplOracle) (source : String) (targets : List String)
    (ps : List Prompt) (s : TransState)
    (h1 : calls_recorded f s) (h2 : s.calls.Nodup) :
    calls_recorded f (resolve_prompts (some f) source targets ps s).2 ∧
    (resolve_prompts (some f) source targets ps s).2.calls.Nodup := by
  induction ps generalizing s with
  | nil => exact ⟨h1, h2⟩
  | cons p rest ih =>
    have step := resolve_prompt_invariant f source targets p s h1 h2
    simpa [resolve_prompts] using ih _ step.1 step.2

theorem do_translate_invariant (f : DeeplOracle) (source : String) (targets : List String)
    (files : List (String × List Prompt)) (s : TransState)
    (h1 : calls_recorded f s) (h2 : s.calls.Nodup) :
    calls_recorded f (do_translate (some f) source targets files s).2 ∧
    (do_translate (some f) source targets files s).2.calls.Nodup := by
  induction files generalizing s with
  | nil => exact ⟨h1, h2⟩
  | cons fl rest ih =>
    cases fl with
    | mk path ps =>
      have step := resolve_prompts_invariant f source targets ps s h1 h2
      simpa [do_translate] using ih _ step.1 step.2

theorem resolve_prompt_text (tl : Option DeeplOracle) (source : String)
    (targets : List String) (p : Prompt) (s : TransState) :
    (resolve_prompt tl source targets p s).1.text = p.text := by
  cases tl with
  | none => simp [resolve_prompt, Prompt.text_set_translation, copy_cache_hits_text]
  | some f =>
    simp [resolve_prompt, resolve_targets_text, Prompt.text_set_translation,
      copy_cache_hits_text]

theorem resolve_prompt_source_entry (tl : Option DeeplOracle) (source : String)
    (targets : List String) (p : Prompt) (s : TransState) :
    mapGet (resolve_prompt tl source targets p s).1.translations source = some p.text := by
  have hbase : mapGet ((copy_cache_hits p s).set_translation source
      (copy_cache_hits p s).text).translations source = some p.text := by
    simp [Prompt.set_translation, mapGet_mapSet, copy_cache_hits_text]
  cases tl with
  | none => simpa [resolve_prompt] using hbase
  | some f =>
    simpa [resolve_prompt, resolve_targets_mapGet_source] using hbase

theorem resolve_prompts_texts (tl : Option DeeplOracle) (source : String)
    (targets : List String) (ps : List Prompt) (s : TransState) :
    (resolve_prompts tl source targets ps s).1.map Prompt.text = ps.map Prompt.text := by
  induction ps generalizing s with
  | nil => rfl
  | cons p rest ih => simp [resolve_prompts, resolve_prompt_text, ih]

theorem resolve_prompts_source_entry (tl : Option DeeplOracle) (source : String)
    (targets : List String) (ps : List Prompt) (s : TransState) :
    ∀ q ∈ (resolve_prompts tl source targets ps s).1,
      mapGet q.translations source = some q.text := by
  induction ps generalizing s with
  | nil => intro q hq; simp [resolve_prompts] at hq
  | cons p rest ih =>
    intro q hq
    simp only [resolve_prompts, List.mem_cons] at hq
    rcases hq with hq | hq
    · subst hq
      rw [resolve_prompt_text]
      exact resolve_prompt_source_entry tl source targets p s
    · exact ih _ q hq

theorem do_translate_shape (tl : Option DeeplOracle) (source : String)
    (targets : List String) (files : List (String × List Prompt)) (s : TransState) :
    (do_translate tl source targets files s).1.map (fun fl => (fl.1, fl.2.map Prompt.text)) =
      files.map (fun fl => (fl.1, fl.2.map Prompt.text)) := by
  induction files generalizing s with
  | nil => rfl
  | cons fl rest ih =>
    cases fl with
    | mk path ps => simp [do_translate, resolve_prompts_texts, ih]

theorem do_translate_source_entry_all (tl : Option DeeplOracle) (source : String)
    (targets : List String) (files : List (String × List Prompt)) (s : TransState) :
    ∀ fl ∈ (do_translate tl source targets files s).1, ∀ q ∈ fl.2,
      mapGet q.translations source = some q.text := by
  induction files generalizing s with
  | nil => intro fl hfl; simp [do_translate] at hfl
  | cons f0 rest ih =>
    cases f0 with
    | mk path ps =>
      intro fl hfl
      simp only [do_translate, List.mem_cons] at hfl
      rcases hfl with hfl | hfl
      · subst hfl
        intro q hq
        exact resolve_prompts_source_entry tl source targets ps s q hq
      · exact ih _ fl hfl

theorem throttle_call_lower_bound (st : Throttle) (now : Rat) :
    st.time_of_last_call + st.throttle_period ≤ (Throttle.call st now).1 := by
  unfold Throttle.call
  by_cases h : st.throttle_period < now - st.time_of_last_call
  · rw [if_pos h]
    linarith
  · rw [if_neg h]
    simp only
    linarith

theorem throttle_call_updates_last (st : Throttle) (now : Rat) :
    (Throttle.call st now).2.time_of_last_call = (Throttle.call st now).1 ∧
    (Throttle.call st now).2.throttle_period = st.throttle_period := by
  unfold Throttle.call
  by_cases h : st.throttle_period < now - st.time_of_last_call
  · rw [if_pos h]; exact ⟨rfl, rfl⟩
  · rw [if_neg h]; exact ⟨rfl, rfl⟩

/-- C1: within one run of `do_translate` the trace of remote translation
calls contains every (text, target-language) pair at most once, and every
pair that was called is present in the in-memory cache at the end of the
run, which is how a later prompt with identical text resolves from the
cache instead of calling again. -/
theorem do_translate_at_most_one_call_per_pair (translator : Option DeeplOracle)
    (source : String) (targets : List String) (files : List (String × List Prompt))
    (cache : Translations) (n : Nat) :
    ((do_translate translator source targets files ⟨cache, n, []⟩).2.calls.Nodup) ∧
    (∀ pr ∈ (do_translate translator source targets files ⟨cache, n, []⟩).2.calls,
      (do_translate translator source targets files ⟨cache, n, []⟩).2.cache.has_cell pr.2 pr.1 = true) := by
  cases translator with
  | none =>
    constructor
    · rw [do_translate_none_state]
      exact List.nodup_nil
    · intro pr hpr
      rw [do_translate_none_state] at hpr
      simp at hpr
  | some f =>
    have h := do_translate_invariant f source targets files ⟨cache, n, []⟩
      (by intro pr hpr; simp at hpr) List.nodup_nil
    refine ⟨h.2, fun pr hpr => ?_⟩
    have := h.1 pr hpr
    simp [Translations.has_cell, this]

theorem do_translate_at_most_one_call_per_pair_witness :
    (("Bonjour", "en-US") ∈ (do_translate (some (fun _ _ => some "Hello")) "fr-FR" ["en-US"]
      [("f1", [⟨"Bonjour", []⟩])] ⟨⟨[]⟩, 0, []⟩).2.calls) ∧
    ((do_translate (some (fun _ _ => some "Hello")) "fr-FR" ["en-US"]
      [("f1", [⟨"Bonjour", []⟩])] ⟨⟨[]⟩, 0, []⟩).2.cache.has_cell "en-US" "Bonjour" = true) :=
  ⟨by decide,
   (do_translate_at_most_one_call_per_pair (some (fun _ _ => some "Hello")) "fr-FR" ["en-US"]
      [("f1", [⟨"Bonjour", []⟩])] ⟨[]⟩ 0).2 ("Bonjour", "en-US") (by decide)⟩

/-- C2 (supporting theorem): the `Throttle` wrapper of throttle.py does
enforce the configured minimum interval — the wrapped function never runs
earlier than the recorded time of the last call plus the period, and two
consecutive invocations are always at least one period apart.  The
translator, however, never applies this wrapper to its remote calls:
translator.py does not import throttle.py anywhere. -/
theorem throttle_paces_consecutive_calls (st : Throttle) (now1 now2 : Rat) :
    (st.throttle_period ≤ (Throttle.call st now1).1 - st.time_of_last_call) ∧
    ((Throttle.call st now1).2.time_of_last_call = (Throttle.call st now1).1) ∧
    (st.throttle_period ≤
      (Throttle.call (Throttle.call st now1).2 now2).1 - (Throttle.call st now1).1) := by
  have h1 := throttle_call_lower_bound st now1
  have h2 := throttle_call_updates_last st now1
  have h3 := throttle_call_lower_bound (Throttle.call st now1).2 now2
  rw [h2.1, h2.2] at h3
  exact ⟨by linarith, h2.1, by linarith⟩

/-- C3: after `do_translate`, the resolved files keep exactly the original
paths and prompt texts, and every resolved prompt's source-language entry is
its own original text — even when the loaded cache held a different value
for the source language (the cache is arbitrary here), and no remote result
replaces it. -/
theorem do_translate_source_language_entry (tl : Option DeeplOracle) (source : String)
    (targets : List String) (files : List (String × List Prompt)) (s : TransState) :
    ((do_translate tl source targets files s).1.map (fun fl => (fl.1, fl.2.map Prompt.text)) =
      files.map (fun fl => (fl.1, fl.2.map Prompt.text))) ∧
    (∀ fl ∈ (do_translate tl source targets files s).1, ∀ q ∈ fl.2,
      mapGet q.translations source = some q.text) :=
  ⟨do_translate_shape tl source targets files s,
   do_translate_source_entry_all tl source targets files s⟩

theorem do_translate_source_language_entry_witness :
    (("f1", [Prompt.mk "Bonjour" [("fr-FR", "Bonjour")]]) ∈
      (do_translate none "fr-FR" [] [("f1", [Prompt.mk "Bonjour" []])]
        ⟨⟨[("Bonjour", [("fr-FR", "STALE")])]⟩, 0, []⟩).1) ∧
    (Prompt.mk "Bonjour" [("fr-FR", "Bonjour")] ∈ [Prompt.mk "Bonjour" [("fr-FR", "Bonjour")]]) ∧
    (mapGet (Prompt.mk "Bonjour" [("fr-FR", "Bonjour")]).translations "fr-FR" = some "Bonjour") :=
  ⟨by decide, by decide,
   (do_translate_source_language_entry none "fr-FR" [] [("f1", [Prompt.mk "Bonjour" []])]
      ⟨⟨[("Bonjour", [("fr-FR", "STALE")])]⟩, 0, []⟩).2
     ("f1", [Prompt.mk "Bonjour" [("fr-FR", "Bonjour")]]) (by decide)
     (Prompt.mk "Bonjour" [("fr-FR", "Bonjour")]) (by decide)⟩

/-- C4: when the cache already holds a translation of the prompt's text for
a language, resolving the prompt issues no remote call for that
(text, language) pair: every call in the trace afterwards either predates
the prompt or concerns a different pair. -/
theorem resolve_prompt_no_call_for_cached_language (tl : Option DeeplOracle)
    (source : String) (targets : List String) (p : Prompt) (s : TransState) (L : String)
    (h : s.cache.has_cell L p.text = true) :
    ∀ pr ∈ (resolve_prompt tl source targets p s).2.calls,
      pr ∈ s.calls ∨ pr ≠ (p.text, L) := by
  cases tl with
  | none =>
    intro pr hpr
    rw [resolve_prompt_none_state] at hpr
    exact Or.inl hpr
  | some f =>
    have hhas : ((copy_cache_hits p s).set_translation source
        (copy_cache_hits p s).text).has_translation L = true := by
      have := copy_cache_hits_has_of_cell p s L h
      simp [Prompt.has_translation_set_translation, this]
    intro pr hpr
    have hmem : pr ∈ (resolve_targets (some f) source targets
        ((copy_cache_hits p s).set_translation source (copy_cache_hits p s).text) s).2.calls := hpr
    have := resolve_targets_no_call_of_has (some f) source targets _ s L hhas pr hmem
    rcases this with hin | hne
    · exact Or.inl hin
    · right
      simpa [Prompt.text_set_translation, copy_cache_hits_text] using hne

theorem resolve_prompt_no_call_for_cached_language_witness :
    ((Translations.mk [("Bonjour", [("en-US", "Hello")])]).has_cell "en-US" "Bonjour" = true) ∧
    (∀ pr ∈ (resolve_prompt (some (fun _ _ => some "X")) "fr-FR" ["en-US"]
        ⟨"Bonjour", []⟩ ⟨⟨[("Bonjour", [("en-US", "Hello")])]⟩, 0, []⟩).2.calls,
      pr ∈ ([] : List (String × String)) ∨ pr ≠ ("Bonjour", "en-US")) :=
  ⟨by decide,
   resolve_prompt_no_call_for_cached_language (some (fun _ _ => some "X")) "fr-FR" ["en-US"]
      ⟨"Bonjour", []⟩ ⟨⟨[("Bonjour", [("en-US", "Hello")])]⟩, 0, []⟩ "en-US" (by decide)⟩

/-- C5: with no API key supplied, the provider handle is `None`, so a run of
`do_translate` leaves the whole state untouched — the call counter stays 0,
no remote call is issued, the cache is unchanged — and a prompt whose text is
not in the cache simply ends up with only its forced source-language entry. -/
theorem run_without_credential_makes_no_calls (provider : DeeplOracle) (source : String)
    (targets : List String) (files : List (String × List Prompt)) (cache : Translations) :
    (deepl_translator (get_input none) provider = none) ∧
    ((do_translate (deepl_translator (get_input none) provider) source targets files
        ⟨cache, 0, []⟩).2 = ⟨cache, 0, []⟩) ∧
    (∀ p : Prompt, ∀ s : TransState, s.cache.contains p.text = false →
      resolve_prompt (deepl_translator (get_input none) provider) source targets p s =
        (p.set_translation source p.text, s)) := by
  refine ⟨rfl, ?_, ?_⟩
  · exact do_translate_none_state source targets files ⟨cache, 0, []⟩
  · intro p s h
    simp [resolve_prompt, copy_cache_hits, h, deepl_translator, get_input]

theorem run_without_credential_makes_no_calls_witness :
    ((Translations.mk []).contains "Bonjour" = false) ∧
    (resolve_prompt (deepl_translator (get_input none) (fun _ _ => some "X")) "fr-FR" ["en-US"]
        ⟨"Bonjour", []⟩ ⟨⟨[]⟩, 7, []⟩ =
      ((Prompt.mk "Bonjour" []).set_translation "fr-FR" "Bonjour", ⟨⟨[]⟩, 7, []⟩)) :=
  ⟨by decide,
   (run_without_credential_makes_no_calls (fun _ _ => some "X") "fr-FR" ["en-US"] [] ⟨[]⟩).2.2
     ⟨"Bonjour", []⟩ ⟨⟨[]⟩, 7, []⟩ (by decide)⟩

/-- C6: `__write_info_json` overwrites the `language` field, whatever it
contained and with no provider involved, with the sorted deduplicated union
of the source and target languages; for source `fr-FR` and targets
`en-US`, `es-ES` that is exactly `["en-US", "es-ES", "fr-FR"]`. -/
theorem write_info_json_language_spec (content : InfoJson) (source : String)
    (targets : List String) :
    ((write_info_json content source targets).language.Sorted (· ≤ ·)) ∧
    ((write_info_json content source targets).language.Nodup) ∧
    (∀ x, x ∈ (write_info_json content source targets).language ↔ x = source ∨ x ∈ targets) ∧
    ((write_info_json content "fr-FR" ["en-US", "es-ES"]).language =
      ["en-US", "es-ES", "fr-FR"]) := by
  refine ⟨List.sorted_insertionSort _ _, ?_, ?_, ?_⟩
  · exact ((List.perm_insertionSort _ _).nodup_iff).2 (List.nodup_dedup _)
  · intro x
    rw [show (write_info_json content source targets).language =
        ((source :: targets).dedup).insertionSort (· ≤ ·) from rfl]
    rw [(List.perm_insertionSort _ _).mem_iff, List.mem_dedup, List.mem_cons]
  · show ((("fr-FR" : String) :: ["en-US", "es-ES"]).dedup).insertionSort (· ≤ ·) =
      ["en-US", "es-ES", "fr-FR"]
    have hperm : List.Perm (((("fr-FR" : String) :: ["en-US", "es-ES"]).dedup).insertionSort (· ≤ ·))
        ["en-US", "es-ES", "fr-FR"] := by
      refine (List.perm_insertionSort _ _).trans ?_
      decide
    have hs1 := List.sorted_insertionSort (α := String) (· ≤ ·)
      (("fr-FR" :: ["en-US", "es-ES"]).dedup)
    have hs2 : List.Sorted (· ≤ ·) (["en-US", "es-ES", "fr-FR"] : List String) := by
      simp [List.sorted_cons]
      decide
    exact List.eq_of_perm_of_sorted hperm hs1 hs2

/-- C7: with a provider handle present, every invocation of
`transalte_with_deepl` increments the run-scoped API call counter by one and
appends the call to the trace; its return value is the provider's text when
the result shape is as expected and the empty string otherwise, with no
exception path. -/
theorem transalte_with_deepl_counts_and_degrades (f : DeeplOracle) (s : TransState)
    (text lang : String) :
    ((transalte_with_deepl (some f) s text lang).2.api_call_counter =
      s.api_call_counter + 1) ∧
    ((transalte_with_deepl (some f) s text lang).1 = (f text lang).getD "") ∧
    ((transalte_with_deepl (some f) s text lang).2.calls = s.calls ++ [(text, lang)]) ∧
    ((transalte_with_deepl (some f) s text lang).2.cache = s.cache) := by
  rw [transalte_with_deepl_some]
  exact ⟨rfl, rfl, rfl, rfl⟩

/-- C8: every entry of the output of `write_plugin_translations` is a
non-empty document, and every file/group entry inside it is exactly the
non-empty list of qualifying prompts contributed by one of the discovered
files — a file with zero qualifying prompts never appears, and a language
with an empty document is never written. -/
theorem write_plugin_translations_no_empty_entries (source : String)
    (generate_source_language_translations include_empty : Bool)
    (target_languages : List String) (files : List (String × List Prompt)) :
    ∀ entry ∈ write_plugin_translations source generate_source_language_translations
        include_empty target_languages files,
      entry.2 ≠ [] ∧
      ∀ fe ∈ entry.2, ∃ ps, (fe.1, ps) ∈ files ∧
        fe.2 = get_prompts_and_translation ps entry.1 include_empty ∧ fe.2 ≠ [] := by
  intro entry hentry
  unfold write_plugin_translations at hentry
  rw [List.mem_filterMap] at hentry
  obtain ⟨lang, _, hsome⟩ := hentry
  by_cases hskip : lang = source ∧ generate_source_language_translations = false
  · rw [if_pos hskip] at hsome
    exact absurd hsome (by simp)
  · rw [if_neg hskip] at hsome
    set doc := files.filterMap (fun file =>
      let prompts := get_prompts_and_translation file.2 lang include_empty
      if 0 < prompts.length then some (file.1, prompts) else none) with hdoc
    by_cases hlen : 0 < doc.length
    · rw [if_pos hlen] at hsome
      cases hsome
      constructor
      · intro hnil
        have hd : doc = [] := hnil
        rw [hd] at hlen
        simp at hlen
      · intro fe hfe
        rw [hdoc, List.mem_filterMap] at hfe
        obtain ⟨file, hfile, hfe2⟩ := hfe
        by_cases hplen : 0 < (get_prompts_and_translation file.2 lang include_empty).length
        · simp only [hplen, if_pos] at hfe2
          cases hfe2
          refine ⟨file.2, hfile, rfl, ?_⟩
          intro hnil
          have hp : get_prompts_and_translation file.2 lang include_empty = [] := hnil
          rw [hp] at hplen
          simp at hplen
        · simp only [hplen] at hfe2
          simp at hfe2
    · rw [if_neg hlen] at hsome
      exact absurd hsome (by simp)

theorem write_plugin_translations_no_empty_entries_witness :
    (("en-US", [("f1", [("Bonjour", "Hello")])]) ∈
      write_plugin_translations "fr-FR" false false ["en-US", "de-DE"]
        [("f1", [⟨"Bonjour", [("en-US", "Hello")]⟩]), ("f2", [⟨"Chat", []⟩])]) ∧
    ([("f1", [("Bonjour", "Hello")])] ≠ ([] : List (String × List (String × String)))) :=
  ⟨by decide,
   (write_plugin_translations_no_empty_entries "fr-FR" false false ["en-US", "de-DE"]
      [("f1", [⟨"Bonjour", [("en-US", "Hello")]⟩]), ("f2", [⟨"Chat", []⟩])]
      ("en-US", [("f1", [("Bonjour", "Hello")])]) (by decide)).1⟩

/-- C9 counterexample: the value `" true "` lies outside the documented set
`{true, True, TRUE, false, False, FALSE}` yet `_get_boolean_input` accepts
it (the value is whitespace-stripped before comparison), so the claim as
stated fails. -/
theorem get_boolean_input_accepts_padded_true :
    (" true " ∉ (["true", "True", "TRUE", "false", "False", "FALSE"] : List String)) ∧
    (get_boolean_input (some " true ") = Except.ok true) := by
  constructor
  · decide
  · rfl

/-- C9 (amended): any supplied value whose whitespace-stripped form lies
outside `{true, True, TRUE, false, False, FALSE}` — including values that
strip to the empty string — makes `_get_boolean_input` raise. -/
theorem get_boolean_input_invalid_is_error (v : String)
    (h : strip v ∉ (["true", "True", "TRUE", "false", "False", "FALSE"] : List String)) :
    ∃ msg, get_boolean_input (some v) = Except.error msg := by
  simp only [List.mem_cons, List.not_mem_nil, or_false, not_or] at h
  obtain ⟨h1, h2, h3, h4, h5, h6⟩ := h
  unfold get_boolean_input
  split
  · rename_i s heq
    have hs : s = strip v := by
      simp only [get_input] at heq
      by_cases hblank : strip v = ""
      · rw [if_pos hblank] at heq
        cases heq
      · rw [if_neg hblank] at heq
        exact (Option.some.inj heq).symm
    subst hs
    rw [if_neg (by simp [h1, h2, h3]), if_neg (by simp [h4, h5, h6])]
    exact ⟨_, rfl⟩
  · exact ⟨_, rfl⟩

theorem get_boolean_input_invalid_is_error_witness :
    (strip "yes" ∉ (["true", "True", "TRUE", "false", "False", "FALSE"] : List String)) ∧
    ∃ msg, get_boolean_input (some "yes") = Except.error msg :=
  ⟨by decide, get_boolean_input_invalid_is_error "yes" (by decide)⟩

/-- C10: every remote call issued during `do_translate` leaves its result in
the cache under the (target language, text) pair — exactly the provider's
text, or the empty string on an unexpected result shape — and in a concrete
run where the provider fails, the second prompt with identical text receives
the cached empty result without a second remote call. -/
theorem remote_results_always_cached (f : DeeplOracle) (source : String)
    (targets : List String) (files : List (String × List Prompt))
    (cache : Translations) (n : Nat) :
    (∀ pr ∈ (do_translate (some f) source targets files ⟨cache, n, []⟩).2.calls,
      mapGet ((do_translate (some f) source targets files
          ⟨cache, n, []⟩).2.cache.get_translations pr.1) pr.2 =
        some ((f pr.1 pr.2).getD "")) ∧
    (do_translate (some (fun _ _ => none)) "fr-FR" ["en-US"]
        [("f1", [⟨"Bonjour", []⟩, ⟨"Bonjour", []⟩])] ⟨⟨[]⟩, 0, []⟩ =
      ([("f1", [⟨"Bonjour", [("en-US", ""), ("fr-FR", "Bonjour")]⟩,
                ⟨"Bonjour", [("fr-FR", "Bonjour"), ("en-US", "")]⟩])],
       ⟨⟨[("Bonjour", [("en-US", "")])]⟩, 1, [("Bonjour", "en-US")]⟩)) := by
  constructor
  · exact (do_translate_invariant f source targets files ⟨cache, n, []⟩
      (by intro pr hpr; simp at hpr) List.nodup_nil).1
  · decide

theorem remote_results_always_cached_witness :
    (("Bonjour", "en-US") ∈ (do_translate (some (fun _ _ => none)) "fr-FR" ["en-US"]
      [("f1", [⟨"Bonjour", []⟩, ⟨"Bonjour", []⟩])] ⟨⟨[]⟩, 0, []⟩).2.calls) ∧
    (mapGet ((do_translate (some (fun _ _ => none)) "fr-FR" ["en-US"]
        [("f1", [⟨"Bonjour", []⟩, ⟨"Bonjour", []⟩])] ⟨⟨[]⟩, 0, []⟩).2.cache.get_translations
        "Bonjour") "en-US" = some (((fun _ _ => none : DeeplOracle) "Bonjour" "en-US").getD "")) :=
  ⟨by decide,
   (remote_results_always_cached (fun _ _ => none) "fr-FR" ["en-US"]
      [("f1", [⟨"Bonjour", []⟩, ⟨"Bonjour", []⟩])] ⟨[]⟩ 0).1 ("Bonjour", "en-US") (by decide)⟩

end PluginTranslations
